import Mathlib

/-!
Verification development for the people-counting backend.

The definitions below are a shallow embedding of the Python sources:
  * `backend/services.py`   — `PeopleCountingService` (reconciliation engine),
  * `backend/people_subscriber.py` — `DahuaPeopleSubscriber._run_source`,
    `_iter_multipart_blocks`, `_extract_body`, `_parse_key_value_block`,
  * `backend/camera_sync.py` — `_extract_from_fields`.

Machine integers are modelled as `Int` (Python integers are unbounded),
byte strings as `List Nat`, dictionaries as association lists with
first-match lookup, and the async database session as an explicit list of
`Camera` rows together with the list of rows added during a call.
-/

namespace PeopleCounting

/-- Fields of `config.Settings` used by the engine (config.py); the engine
reads only the two logical channel numbers. Defaults are the source defaults. -/
structure Settings where
  camera_d4_channel : Int := 3
  camera_d6_channel : Int := 5
deriving DecidableEq

/-- services.ChannelState (services.py lines 14-21). -/
structure ChannelState where
  camera_name : String
  api_channel : Int
  last_entered : Int := 0
  last_exited : Int := 0
  inside_total : Int := 0
deriving DecidableEq

/-- models.Camera row: primary key `id`, `name`, `api_channel`. -/
structure Camera where
  id : Int
  name : String
  api_channel : Int
deriving DecidableEq

/-- models.PeopleEvent row as built by `handle_raw_totals`; the wall-clock
`timestamp` column is not modelled. -/
structure PeopleEvent where
  camera_id : Int
  direction : String
  delta : Int
  entered_total : Int
  exited_total : Int
  occupancy_after : Int
deriving DecidableEq

/-- models.ResetLog row as built by `set_occupancy`; the wall-clock
`timestamp` column is not modelled. -/
structure ResetLog where
  camera_id : Int
  reason : String
  success : Bool
deriving DecidableEq

/-- Mutable state of `PeopleCountingService`: the `_channels` dict (an
association list keyed by api_channel, first match wins, matching Python
dict semantics since keys are unique) and `occupancy_offset`. -/
structure EngineState where
  channels : List (Int × ChannelState)
  occupancy_offset : Int
deriving DecidableEq

/-- Python `self._channels.get(api_channel)`. -/
def lookupChannel : List (Int × ChannelState) → Int → Option ChannelState
  | [], _ => none
  | (k, v) :: rest, ch => if k = ch then some v else lookupChannel rest ch

/-- In-place mutation of the `ChannelState` object stored under key `ch`
(Python mutates the object held in the dict). -/
def updateChannel (f : ChannelState → ChannelState) :
    List (Int × ChannelState) → Int → List (Int × ChannelState)
  | [], _ => []
  | (k, v) :: rest, ch =>
    if k = ch then (k, f v) :: rest else (k, v) :: updateChannel f rest ch

/-- The database query
`session.scalar(select(Camera).where(Camera.api_channel == api_channel))`:
first row of the cameras table whose `api_channel` matches. -/
def findCamera (db : List Camera) (api_channel : Int) : Option Camera :=
  db.find? (fun c => c.api_channel == api_channel)

/-- `PeopleCountingService.get_presence_snapshot` (services.py lines 162-206).
Returns the computed total and the per-camera attribution (the `timestamp`
and constant `since_reset` fields are not modelled). -/
structure Snapshot where
  presenti_totali : Int
  per_camera : List (String × Int)
deriving DecidableEq

def get_presence_snapshot (settings : Settings) (st : EngineState) : Snapshot :=
  let d4_ch := settings.camera_d4_channel
  let d6_ch := settings.camera_d6_channel
  let d4_val : Int :=
    match lookupChannel st.channels d4_ch with
    | some s => s.inside_total + (s.last_entered - s.last_exited)
    | none => 0
  let d6_val : Int :=
    match lookupChannel st.channels d6_ch with
    | some s => s.last_entered - s.last_exited
    | none => 0
  let raw_total := d4_val + d6_val
  let final_total := raw_total + st.occupancy_offset
  let d4_final := d4_val + st.occupancy_offset
  { presenti_totali := final_total
    per_camera := [("D4", d4_final), ("D6", d6_val)] }

/-- `PeopleCountingService.handle_raw_totals` (services.py lines 79-143).
Returns the engine state after the call together with the list of
`PeopleEvent` rows added to the session during the call. -/
def handle_raw_totals (settings : Settings) (db : List Camera)
    (st : EngineState) (api_channel entered_total exited_total : Int) :
    EngineState × List PeopleEvent :=
  match lookupChannel st.channels api_channel with
  | none => (st, [])
  | some state =>
    let prev_entered := state.last_entered
    let prev_exited := state.last_exited
    let upd : ChannelState → ChannelState := fun s =>
      { s with last_entered := entered_total, last_exited := exited_total }
    let st' : EngineState :=
      { st with channels := updateChannel upd st.channels api_channel }
    let delta_enter := max 0 (entered_total - prev_entered)
    let delta_exit := max 0 (exited_total - prev_exited)
    if delta_enter = 0 ∧ delta_exit = 0 then (st', [])
    else
      match findCamera db api_channel with
      | none => (st', [])
      | some camera =>
        let total_after := (get_presence_snapshot settings st').presenti_totali
        let enter_events : List PeopleEvent :=
          if 0 < delta_enter then
            [{ camera_id := camera.id, direction := "ENTRATA",
               delta := delta_enter, entered_total := entered_total,
               exited_total := exited_total, occupancy_after := total_after }]
          else []
        let exit_events : List PeopleEvent :=
          if 0 < delta_exit then
            [{ camera_id := camera.id, direction := "USCITA",
               delta := delta_exit, entered_total := entered_total,
               exited_total := exited_total, occupancy_after := total_after }]
          else []
        (st', enter_events ++ exit_events)

/-- `PeopleCountingService.set_occupancy` (services.py lines 232-272).
`audit_raises` models an exception raised inside the `try` block while
looking up the camera or adding the `ResetLog` row (the code swallows any
such exception with `except Exception: pass`). Returns the state after the
call and the `ResetLog` row added to the session, if any. -/
def set_occupancy (settings : Settings) (db : List Camera)
    (audit_raises : Bool) (st : EngineState) (target_occupancy : Int)
    (reason : String) : EngineState × Option ResetLog :=
  let snapshot := get_presence_snapshot settings st
  let current_total := snapshot.presenti_totali
  let diff := target_occupancy - current_total
  if diff = 0 then (st, none)
  else
    let st' : EngineState :=
      { st with occupancy_offset := st.occupancy_offset + diff }
    let log : Option ResetLog :=
      if audit_raises then none
      else
        match findCamera db settings.camera_d4_channel with
        | some camera =>
          some { camera_id := camera.id
                 reason := reason ++ ": " ++ toString target_occupancy
                 success := true }
        | none => none
    (st', log)

/-- Folding `handle_raw_totals` over a sequence of counter snapshots
`(entered_total, exited_total)` delivered for one channel, collecting all
emitted events. -/
def applySnapshots (settings : Settings) (db : List Camera)
    (api_channel : Int) :
    EngineState → List (Int × Int) → EngineState × List PeopleEvent
  | st, [] => (st, [])
  | st, (e, x) :: rest =>
    let r := handle_raw_totals settings db st api_channel e x
    let r2 := applySnapshots settings db api_channel r.1 rest
    (r2.1, r.2 ++ r2.2)

theorem lookupChannel_updateChannel_self (f : ChannelState → ChannelState) :
    ∀ (chans : List (Int × ChannelState)) (ch : Int),
    lookupChannel (updateChannel f chans ch) ch = (lookupChannel chans ch).map f := by
  intro chans
  induction chans with
  | nil => intro ch; rfl
  | cons p rest ih =>
    intro ch
    obtain ⟨k, v⟩ := p
    by_cases hk : k = ch
    · simp [updateChannel, lookupChannel, hk]
    · simp [updateChannel, lookupChannel, hk, ih]

theorem get_presence_snapshot_total_offset (settings : Settings)
    (st : EngineState) (o : Int) :
    (get_presence_snapshot settings { st with occupancy_offset := o }).presenti_totali
      = (get_presence_snapshot settings st).presenti_totali
        - st.occupancy_offset + o := by
  simp only [get_presence_snapshot]
  rcases h4 : lookupChannel st.channels settings.camera_d4_channel with _ | s4 <;>
    rcases h6 : lookupChannel st.channels settings.camera_d6_channel with _ | s6 <;>
      simp [h4, h6]

/-- C7: in every snapshot returned by `get_presence_snapshot`, the
per-camera values sum exactly to the reported `presenti_totali`. -/
theorem per_camera_sums_to_total (settings : Settings) (st : EngineState) :
    ((get_presence_snapshot settings st).per_camera.map Prod.snd).sum
      = (get_presence_snapshot settings st).presenti_totali := by
  simp only [get_presence_snapshot]
  rcases h4 : lookupChannel st.channels settings.camera_d4_channel with _ | s4 <;>
    rcases h6 : lookupChannel st.channels settings.camera_d6_channel with _ | s6 <;>
      simp [h4, h6] <;> ring

/-- C3: `set_occupancy target` adds `target` minus the currently computed
total to `occupancy_offset` (it never overwrites the offset wholesale), and
a `get_presence_snapshot` immediately afterwards reports exactly `target`. -/
theorem set_occupancy_adds_diff_and_sets_total (settings : Settings)
    (db : List Camera) (audit_raises : Bool) (st : EngineState)
    (target : Int) (reason : String) :
    (set_occupancy settings db audit_raises st target reason).1.occupancy_offset
      = st.occupancy_offset
        + (target - (get_presence_snapshot settings st).presenti_totali) ∧
    (get_presence_snapshot settings
        (set_occupancy settings db audit_raises st target reason).1).presenti_totali
      = target := by
  by_cases hd : target - (get_presence_snapshot settings st).presenti_totali = 0
  · simp only [set_occupancy, if_pos hd]
    constructor
    · omega
    · omega
  · simp only [set_occupancy, if_neg hd]
    refine ⟨by trivial, ?_⟩
    have h := get_presence_snapshot_total_offset settings st
      (st.occupancy_offset
        + (target - (get_presence_snapshot settings st).presenti_totali))
    rw [h]
    ring

/-- C6: `set_occupancy` with a target equal to the currently computed total
is a no-op: the state (offset and channels) is returned unchanged and no
`ResetLog` row is added. -/
theorem set_occupancy_noop_at_current_total (settings : Settings)
    (db : List Camera) (audit_raises : Bool) (st : EngineState)
    (target : Int) (reason : String)
    (h : target = (get_presence_snapshot settings st).presenti_totali) :
    set_occupancy settings db audit_raises st target reason = (st, none) := by
  have hd : target - (get_presence_snapshot settings st).presenti_totali = 0 := by
    omega
  simp only [set_occupancy, if_pos hd]

/-- C10: when the target differs from the current total, the
`occupancy_offset` mutation is applied regardless of how the audit write
turns out, and the audit row is absent when the reference camera row is
missing or the insert raises — the offset is never rolled back. -/
theorem set_occupancy_offset_survives_audit_failure (settings : Settings)
    (st : EngineState) (target : Int) (reason : String)
    (h : target ≠ (get_presence_snapshot settings st).presenti_totali) :
    ∀ (db : List Camera) (audit_raises : Bool),
    (set_occupancy settings db audit_raises st target reason).1.occupancy_offset
      = st.occupancy_offset
        + (target - (get_presence_snapshot settings st).presenti_totali) ∧
    ((audit_raises = true ∨ findCamera db settings.camera_d4_channel = none) →
      (set_occupancy settings db audit_raises st target reason).2 = none) := by
  intro db audit_raises
  have hd : ¬ target - (get_presence_snapshot settings st).presenti_totali = 0 := by
    omega
  simp only [set_occupancy, if_neg hd]
  refine ⟨by trivial, ?_⟩
  rintro (ha | hc)
  · simp [ha]
  · cases haud : audit_raises
    · simp [hc]
    · simp

/-- Overwrite of the stored raw totals performed at services.py lines
100-101 (`state.last_entered = entered_total; state.last_exited =
exited_total`). -/
def setTotals (e x : Int) (s : ChannelState) : ChannelState :=
  { s with last_entered := e, last_exited := x }

theorem handle_raw_totals_fst (settings : Settings) (db : List Camera)
    (st : EngineState) (ch e x : Int) (cs : ChannelState)
    (hch : lookupChannel st.channels ch = some cs) :
    (handle_raw_totals settings db st ch e x).1 =
      { st with channels := updateChannel (setTotals e x) st.channels ch } := by
  simp only [handle_raw_totals, hch]
  split
  · rfl
  · cases findCamera db ch <;> rfl

theorem lookupChannel_handle_raw_totals (settings : Settings)
    (db : List Camera) (st : EngineState) (ch e x : Int) (cs : ChannelState)
    (hch : lookupChannel st.channels ch = some cs) :
    lookupChannel (handle_raw_totals settings db st ch e x).1.channels ch =
      some (setTotals e x cs) := by
  rw [handle_raw_totals_fst settings db st ch e x cs hch]
  simp [lookupChannel_updateChannel_self, hch]

/-- C1: for a configured channel whose camera row exists, the events added
by `handle_raw_totals` are exactly one ENTRATA event when
`max 0 (e1 - e0) > 0`, followed by one USCITA event when
`max 0 (x1 - x0) > 0`, carrying precisely those clamped deltas; when both
clamped deltas are zero no event is added, and every added event has a
strictly positive delta. -/
theorem handle_raw_totals_emitted_deltas (settings : Settings)
    (db : List Camera) (st : EngineState) (ch e1 x1 : Int)
    (cs : ChannelState) (cam : Camera)
    (hch : lookupChannel st.channels ch = some cs)
    (hcam : findCamera db ch = some cam) :
    (handle_raw_totals settings db st ch e1 x1).2 =
      (if 0 < max 0 (e1 - cs.last_entered) then
        [{ camera_id := cam.id, direction := "ENTRATA",
           delta := max 0 (e1 - cs.last_entered), entered_total := e1,
           exited_total := x1,
           occupancy_after := (get_presence_snapshot settings
             (handle_raw_totals settings db st ch e1 x1).1).presenti_totali }]
       else []) ++
      (if 0 < max 0 (x1 - cs.last_exited) then
        [{ camera_id := cam.id, direction := "USCITA",
           delta := max 0 (x1 - cs.last_exited), entered_total := e1,
           exited_total := x1,
           occupancy_after := (get_presence_snapshot settings
             (handle_raw_totals settings db st ch e1 x1).1).presenti_totali }]
       else []) ∧
    ∀ ev ∈ (handle_raw_totals settings db st ch e1 x1).2, 0 < ev.delta := by
  have hfst := handle_raw_totals_fst settings db st ch e1 x1 cs hch
  have hsnd : (handle_raw_totals settings db st ch e1 x1).2 =
      (if 0 < max 0 (e1 - cs.last_entered) then
        [{ camera_id := cam.id, direction := "ENTRATA",
           delta := max 0 (e1 - cs.last_entered), entered_total := e1,
           exited_total := x1,
           occupancy_after := (get_presence_snapshot settings
             (handle_raw_totals settings db st ch e1 x1).1).presenti_totali }]
       else []) ++
      (if 0 < max 0 (x1 - cs.last_exited) then
        [{ camera_id := cam.id, direction := "USCITA",
           delta := max 0 (x1 - cs.last_exited), entered_total := e1,
           exited_total := x1,
           occupancy_after := (get_presence_snapshot settings
             (handle_raw_totals settings db st ch e1 x1).1).presenti_totali }]
       else []) := by
    rw [hfst]
    by_cases h0 : max 0 (e1 - cs.last_entered) = 0 ∧
        max 0 (x1 - cs.last_exited) = 0
    · have hne : ¬ 0 < max 0 (e1 - cs.last_entered) := by omega
      have hnx : ¬ 0 < max 0 (x1 - cs.last_exited) := by omega
      rw [if_neg hne, if_neg hnx]
      simp only [handle_raw_totals, hch, if_pos h0]
      rfl
    · simp only [handle_raw_totals, hch, if_neg h0, hcam]
      rfl
  refine ⟨hsnd, ?_⟩
  intro ev hev
  rw [hsnd] at hev
  rcases List.mem_append.mp hev with h | h
  · rcases Decidable.em (0 < max 0 (e1 - cs.last_entered)) with hc | hc
    · rw [if_pos hc, List.mem_singleton] at h
      rw [h]
      exact hc
    · rw [if_neg hc] at h
      cases h
  · rcases Decidable.em (0 < max 0 (x1 - cs.last_exited)) with hc | hc
    · rw [if_pos hc, List.mem_singleton] at h
      rw [h]
      exact hc
    · rw [if_neg hc] at h
      cases h

/-- C2: after applying any sequence of counter snapshots ending in
`(e, x)` to a configured channel, the stored `last_entered`/`last_exited`
equal the raw values of the most recently applied snapshot, even across
non-monotonic jumps. -/
theorem applySnapshots_tracks_last_snapshot (settings : Settings)
    (db : List Camera) (ch : Int) :
    ∀ (snaps : List (Int × Int)) (st : EngineState) (cs : ChannelState)
      (e x : Int),
    lookupChannel st.channels ch = some cs →
    lookupChannel
        (applySnapshots settings db ch st (snaps ++ [(e, x)])).1.channels ch
      = some { cs with last_entered := e, last_exited := x } := by
  intro snaps
  induction snaps with
  | nil =>
    intro st cs e x hch
    simp only [List.nil_append, applySnapshots]
    exact lookupChannel_handle_raw_totals settings db st ch e x cs hch
  | cons p tl ih =>
    obtain ⟨a, b⟩ := p
    intro st cs e x hch
    simp only [List.cons_append, applySnapshots]
    have hch' := lookupChannel_handle_raw_totals settings db st ch a b cs hch
    exact ih (handle_raw_totals settings db st ch a b).1
      { cs with last_entered := a, last_exited := b } e x hch'

/-- C9: on a configured channel with a non-zero clamped delta, when no
camera row matches the channel, `handle_raw_totals` still overwrites the
stored totals but adds no `PeopleEvent` and returns normally. -/
theorem handle_raw_totals_missing_camera (settings : Settings)
    (db : List Camera) (st : EngineState) (ch e1 x1 : Int)
    (cs : ChannelState)
    (hch : lookupChannel st.channels ch = some cs)
    (hcam : findCamera db ch = none)
    (hdelta : ¬ (max 0 (e1 - cs.last_entered) = 0 ∧
                 max 0 (x1 - cs.last_exited) = 0)) :
    handle_raw_totals settings db st ch e1 x1 =
      ({ st with channels := updateChannel (setTotals e1 x1) st.channels ch },
       []) ∧
    lookupChannel (handle_raw_totals settings db st ch e1 x1).1.channels ch =
      some (setTotals e1 x1 cs) := by
  refine ⟨?_, lookupChannel_handle_raw_totals settings db st ch e1 x1 cs hch⟩
  simp only [handle_raw_totals, hch, if_neg hdelta, hcam]
  rfl

/-- Sample camera row used by the concrete witnesses. -/
def exCam : Camera := ⟨1, "D4", 3⟩

/-- Sample cameras table used by the concrete witnesses. -/
def exDB : List Camera := [exCam]

/-- Sample channel state used by the concrete witnesses. -/
def exCS : ChannelState := ⟨"D4", 3, 10, 4, 0⟩

/-- Sample engine state used by the concrete witnesses: channel 3 has
entered=10, exited=4, inside=0; channel 5 is absent; offset 2. -/
def exState : EngineState := ⟨[(3, exCS)], 2⟩

theorem handle_raw_totals_emitted_deltas_witness :
    (handle_raw_totals {} exDB exState 3 15 4).2 =
      [{ camera_id := 1, direction := "ENTRATA", delta := 5,
         entered_total := 15, exited_total := 4, occupancy_after := 13 }] := by
  have h := handle_raw_totals_emitted_deltas {} exDB exState 3 15 4 exCS exCam
    (by decide) (by decide)
  rw [h.1]
  decide

theorem applySnapshots_tracks_last_snapshot_witness :
    lookupChannel exState.channels 3 = some exCS ∧
    lookupChannel
        (applySnapshots {} exDB 3 exState ([(100, 40)] ++ [(3, 1)])).1.channels 3
      = some { exCS with last_entered := 3, last_exited := 1 } :=
  ⟨by decide,
   applySnapshots_tracks_last_snapshot {} exDB 3 [(100, 40)] exState exCS 3 1
     (by decide)⟩

theorem handle_raw_totals_missing_camera_witness :
    handle_raw_totals {} [] exState 3 20 4 =
      ({ exState with
          channels := updateChannel (setTotals 20 4) exState.channels 3 },
       []) ∧
    lookupChannel (handle_raw_totals {} [] exState 3 20 4).1.channels 3 =
      some (setTotals 20 4 exCS) :=
  handle_raw_totals_missing_camera {} [] exState 3 20 4 exCS
    (by decide) (by decide) (by decide)

theorem set_occupancy_noop_witness :
    (8 : Int) = (get_presence_snapshot {} exState).presenti_totali ∧
    set_occupancy {} exDB false exState 8 "MANUAL_SET" = (exState, none) :=
  ⟨by decide,
   set_occupancy_noop_at_current_total {} exDB false exState 8 "MANUAL_SET"
     (by decide)⟩

theorem set_occupancy_offset_witness :
    (11 : Int) ≠ (get_presence_snapshot {} exState).presenti_totali ∧
    ((set_occupancy {} [] true exState 11 "MANUAL_SET").1.occupancy_offset
      = exState.occupancy_offset
        + (11 - (get_presence_snapshot {} exState).presenti_totali) ∧
    ((true = true ∨ findCamera [] ({} : Settings).camera_d4_channel = none) →
      (set_occupancy {} [] true exState 11 "MANUAL_SET").2 = none)) :=
  ⟨by decide,
   set_occupancy_offset_survives_audit_failure {} exState 11 "MANUAL_SET"
     (by decide) [] true⟩

/-- Outcome of one iteration of the `while not self._stopped.is_set()` loop
in `DahuaPeopleSubscriber._run_source` (people_subscriber.py lines 77-166). -/
inductive AttachOutcome where
  /-- An exception is raised before the attach response starts streaming
  (connection refused, digest-auth failure, non-2xx status): the supervisor
  never enters STREAMING in this iteration. -/
  | connectFail
  /-- The connection succeeds, the supervisor enters STREAMING and consumes
  blocks, then a transport exception tears the stream down mid-iteration. -/
  | streamFail
  /-- The response context exits without an exception (graceful close). -/
  | gracefulClose
deriving DecidableEq

/-- Whether the iteration reached the STREAMING state (the connection
attempt succeeded). -/
def entersStreaming : AttachOutcome → Bool
  | .connectFail => false
  | .streamFail => true
  | .gracefulClose => true

/-- One iteration of the `_run_source` retry loop: from the current
`backoff` and the iteration's outcome, the backoff for the next iteration
and the list of sleeps (`await asyncio.sleep(backoff)`) performed, in
order. The code sets `backoff = 1` only after the `async with` block exits
without an exception (line 153); any exception path sleeps the current
backoff and doubles it up to the ceiling 60 (lines 165-166). -/
def runSourceStep (backoff : Nat) : AttachOutcome → Nat × List Nat
  | .gracefulClose => (1, [])
  | .connectFail => (min 60 (backoff * 2), [backoff])
  | .streamFail => (min 60 (backoff * 2), [backoff])

/-- The sleeps performed by `_run_source` across a run of iteration
outcomes, threading the backoff value (`backoff = 1` initially, line 74). -/
def runSource (backoff : Nat) : List AttachOutcome → List Nat
  | [] => []
  | o :: rest =>
    let r := runSourceStep backoff o
    r.2 ++ runSource r.1 rest

/-- C4 fails on the code: the second connection attempt succeeds and the
supervisor enters STREAMING with backoff already doubled to 2; when that
stream then fails, the first wait is 2 time units, not the floor value 1
that the claim requires after entering STREAMING. -/
theorem runSource_no_reset_on_entering_streaming :
    entersStreaming .streamFail = true ∧
    runSource 1 [.connectFail, .streamFail] = [1, 2] ∧
    runSource 1 [.connectFail, .streamFail] ≠ [1, 1] := by
  decide

/-- C4 (amended): the backoff resets to its floor value 1 exactly when a
streaming session closes gracefully (the response context exits without a
transport exception); an iteration that fails — whether before or during
STREAMING — sleeps the current backoff once and doubles it up to the
ceiling 60, so a failure during a session entered with elevated backoff
still waits the elevated value. -/
theorem runSource_reset_on_graceful_close :
    (∀ (backoff : Nat) (rest : List AttachOutcome),
      runSource backoff (.gracefulClose :: rest) = runSource 1 rest) ∧
    (∀ (backoff : Nat) (o : AttachOutcome) (rest : List AttachOutcome),
      o ≠ .gracefulClose →
      runSource backoff (o :: rest) =
        backoff :: runSource (min 60 (backoff * 2)) rest) := by
  constructor
  · intro backoff rest
    rfl
  · intro backoff o rest ho
    cases o
    · rfl
    · rfl
    · exact absurd rfl ho

theorem runSource_reset_on_graceful_close_witness :
    runSource 5 [.gracefulClose, .streamFail] = runSource 1 [.streamFail] ∧
    (AttachOutcome.streamFail ≠ .gracefulClose ∧
      runSource 7 [.streamFail] = 7 :: runSource (min 60 (7 * 2)) []) :=
  ⟨runSource_reset_on_graceful_close.1 5 [.streamFail],
   by decide,
   runSource_reset_on_graceful_close.2 7 .streamFail [] (by decide)⟩

/-- Python dict.get over the parsed key=value record (keys are unique, so
first-match lookup coincides with dict semantics). -/
def fieldsGet (fields : List (String × String)) (k : String) : Option String :=
  match fields.find? (fun p => p.1 == k) with
  | some p => some p.2
  | none => none

/-- Python `a or b` on two `dict.get` results, where `None` and the empty
string are falsy (camera_sync.py lines 27-32 rely on this). -/
def pyOr (a b : Option String) : Option String :=
  match a with
  | some s => if s = "" then b else some s
  | none => b

/-- Digit run of Python `int`: at least one ASCII digit, most significant
first (underscore grouping and non-ASCII digits are not modelled). -/
def digitsVal (cs : List Char) : Option Nat :=
  if cs = [] then none
  else cs.foldl (fun acc c =>
    match acc with
    | some n => if c.isDigit then some (n * 10 + (c.toNat - 48)) else none
    | none => none) (some 0)

/-- Python `int(s)` on a string, `none` when it raises `ValueError`:
surrounding whitespace is stripped and an optional single sign may precede
the digits. -/
def pyInt (s : String) : Option Int :=
  let cs := ((s.toList.dropWhile Char.isWhitespace).reverse.dropWhile
    Char.isWhitespace).reverse
  match cs with
  | [] => none
  | c :: rest =>
    if c = Char.ofNat 45 then (digitsVal rest).map (fun n => -(n : Int))
    else if c = Char.ofNat 43 then (digitsVal rest).map (fun n => (n : Int))
    else (digitsVal cs).map (fun n => (n : Int))

/-- `camera_sync._extract_from_fields` (camera_sync.py lines 25-41):
entered/exited from the `.Today` fields, falling back to `.Total` via
Python `or`; `none` when a value is missing or `int()` raises. -/
def _extract_from_fields (fields : List (String × String)) :
    Option (Int × Int) :=
  let entered := pyOr (fieldsGet fields "summary.EnteredSubtotal.Today")
    (fieldsGet fields "summary.EnteredSubtotal.Total")
  let exited := pyOr (fieldsGet fields "summary.ExitedSubtotal.Today")
    (fieldsGet fields "summary.ExitedSubtotal.Total")
  match entered, exited with
  | some es, some xs =>
    match pyInt es, pyInt xs with
    | some e, some x => some (e, x)
    | _, _ => none
  | _, _ => none

/-- Typed event emitted by the stream reader to the engine handlers. -/
inductive StreamEvent where
  | totals (logical_channel entered exited : Int)
  | inside (logical_channel n : Int)
deriving DecidableEq

/-- Rule dispatch of `DahuaPeopleSubscriber._run_source` on one parsed
block (people_subscriber.py lines 104-143): a NumberStat record requires
both `.Today` fields (no `.Total` fallback) and is dropped otherwise; a
ManNumDetection record requires `summary.InsideSubtotal.Total`; any other
rule name is ignored; an `int()` failure drops the block (the exception is
caught and logged at lines 144-150). Both handlers are assumed attached. -/
def streamBlockEvent (logical_channel : Int)
    (fields : List (String × String)) : Option StreamEvent :=
  match fieldsGet fields "summary.RuleName" with
  | none => none
  | some rule_name =>
    if rule_name = "NumberStat" then
      match fieldsGet fields "summary.EnteredSubtotal.Today",
            fieldsGet fields "summary.ExitedSubtotal.Today" with
      | some entered_str, some exited_str =>
        match pyInt entered_str, pyInt exited_str with
        | some entered, some exited =>
          some (.totals logical_channel entered exited)
        | _, _ => none
      | _, _ => none
    else if rule_name = "ManNumDetection" then
      match fieldsGet fields "summary.InsideSubtotal.Total" with
      | some inside_str =>
        match pyInt inside_str with
        | some inside => some (.inside logical_channel inside)
        | none => none
      | none => none
    else none

/-- NumberStat record carrying the counters only under the `.Total` names. -/
def c8fields : List (String × String) :=
  [("summary.RuleName", "NumberStat"),
   ("summary.EnteredSubtotal.Total", "5"),
   ("summary.ExitedSubtotal.Total", "3")]

/-- C8 fails on the code: the live attach stream drops a NumberStat record
whose counters appear only under the `.Total` field names — no snapshot is
emitted — even though the getSummary polling path extracts the same record. -/
theorem stream_drops_total_only_record :
    streamBlockEvent 3 c8fields = none ∧
    _extract_from_fields c8fields = some (5, 3) := by
  decide

/-- C8 (amended): only the fallback getSummary polling path falls back to
the `.Total` field names. For a record whose `.Today` fields are absent and
whose `.Total` fields hold numeric strings, `_extract_from_fields` emits
the counter values, while the live attach stream's NumberStat branch drops
the record without emitting a snapshot. -/
theorem extract_from_fields_total_fallback (logical_channel : Int)
    (fields : List (String × String)) (es xs : String) (e x : Int)
    (hrule : fieldsGet fields "summary.RuleName" = some "NumberStat")
    (hTe : fieldsGet fields "summary.EnteredSubtotal.Today" = none)
    (hTx : fieldsGet fields "summary.ExitedSubtotal.Today" = none)
    (hE : fieldsGet fields "summary.EnteredSubtotal.Total" = some es)
    (hX : fieldsGet fields "summary.ExitedSubtotal.Total" = some xs)
    (hpe : pyInt es = some e)
    (hpx : pyInt xs = some x) :
    _extract_from_fields fields = some (e, x) ∧
    streamBlockEvent logical_channel fields = none := by
  constructor
  · simp only [_extract_from_fields, hTe, hTx, hE, hX, pyOr, hpe, hpx]
  · simp [streamBlockEvent, hrule, hTe, hTx]

theorem extract_from_fields_total_fallback_witness :
    fieldsGet c8fields "summary.RuleName" = some "NumberStat" ∧
    fieldsGet c8fields "summary.EnteredSubtotal.Today" = none ∧
    fieldsGet c8fields "summary.ExitedSubtotal.Today" = none ∧
    fieldsGet c8fields "summary.EnteredSubtotal.Total" = some "5" ∧
    fieldsGet c8fields "summary.ExitedSubtotal.Total" = some "3" ∧
    pyInt "5" = some 5 ∧
    pyInt "3" = some 3 ∧
    (_extract_from_fields c8fields = some (5, 3) ∧
      streamBlockEvent 7 c8fields = none) :=
  ⟨by decide, by decide, by decide, by decide, by decide, by decide, by decide,
   extract_from_fields_total_fallback 7 c8fields "5" "3" 5 3
     (by decide) (by decide) (by decide) (by decide) (by decide)
     (by decide) (by decide)⟩

/-- Python `boundary in buffer` (substring containment test used at
people_subscriber.py line 187). -/
def containsSeq (sep : List Nat) : List Nat → Bool
  | [] => sep.isEmpty
  | c :: rest => sep.isPrefixOf (c :: rest) || containsSeq sep rest

/-- Fuel-indexed Python `bytes.split(sep)`: greedy left-to-right
non-overlapping splitting on every occurrence of `sep`. The fuel dominates
the input length so the recursion is structural (and kernel-computable);
`pySplit` instantiates the fuel with the input length. -/
def pySplitF (sep : List Nat) : Nat → List Nat → List (List Nat)
  | _, [] => [[]]
  | 0, s => [s]
  | fuel + 1, c :: rest =>
    if sep ≠ [] ∧ sep.isPrefixOf (c :: rest) then
      [] :: pySplitF sep fuel ((c :: rest).drop sep.length)
    else
      match pySplitF sep fuel rest with
      | [] => [[c]]
      | p :: ps => (c :: p) :: ps

/-- Python `buffer.split(boundary)` as used at people_subscriber.py
line 188. -/
def pySplit (sep s : List Nat) : List (List Nat) :=
  pySplitF sep s.length s

theorem pySplitF_fuel_irrel (sep : List Nat) :
    ∀ (f1 : Nat) (s : List Nat) (f2 : Nat), s.length ≤ f1 → s.length ≤ f2 →
    pySplitF sep f1 s = pySplitF sep f2 s := by
  intro f1
  induction f1 with
  | zero =>
    intro s f2 h1 h2
    have hs : s = [] := List.length_eq_zero.mp (Nat.le_zero.mp h1)
    subst hs
    cases f2 <;> rfl
  | succ f1 ih =>
    intro s f2 h1 h2
    cases s with
    | nil => cases f2 <;> rfl
    | cons c rest =>
      cases f2 with
      | zero => simp at h2
      | succ f2 =>
        have hr1 : rest.length ≤ f1 := by
          simpa using h1
        have hr2 : rest.length ≤ f2 := by
          simpa using h2
        by_cases hc : sep ≠ [] ∧ sep.isPrefixOf (c :: rest)
        · have hd1 : ((c :: rest).drop sep.length).length ≤ f1 := by
            rw [List.length_drop]
            have : 1 ≤ sep.length := by
              cases hsep : sep with
              | nil => exact absurd hsep hc.1
              | cons a t => simp
            simp only [List.length_cons]
            omega
          have hd2 : ((c :: rest).drop sep.length).length ≤ f2 := by
            rw [List.length_drop]
            have : 1 ≤ sep.length := by
              cases hsep : sep with
              | nil => exact absurd hsep hc.1
              | cons a t => simp
            simp only [List.length_cons]
            omega
          simp only [pySplitF, if_pos hc]
          rw [ih ((c :: rest).drop sep.length) f2 hd1 hd2]
        · simp only [pySplitF, if_neg hc]
          rw [ih rest f2 hr1 hr2]

theorem pySplit_nil (sep : List Nat) : pySplit sep [] = [[]] := rfl

theorem pySplit_cons_pos (sep : List Nat) (c : Nat) (rest : List Nat)
    (hc : sep ≠ [] ∧ sep.isPrefixOf (c :: rest)) :
    pySplit sep (c :: rest) =
      [] :: pySplit sep ((c :: rest).drop sep.length) := by
  have h1 : 1 ≤ sep.length := by
    cases hsep : sep with
    | nil => exact absurd hsep hc.1
    | cons a t => simp
  show pySplitF sep (c :: rest).length (c :: rest) = _
  simp only [List.length_cons, pySplitF, if_pos hc]
  congr 1
  apply pySplitF_fuel_irrel
  · rw [List.length_drop]
    simp only [List.length_cons]
    omega
  · exact Nat.le_refl _

theorem pySplit_cons_neg (sep : List Nat) (c : Nat) (rest : List Nat)
    (hc : ¬ (sep ≠ [] ∧ sep.isPrefixOf (c :: rest))) :
    pySplit sep (c :: rest) =
      match pySplit sep rest with
      | [] => [[c]]
      | p :: ps => (c :: p) :: ps := by
  show pySplitF sep (c :: rest).length (c :: rest) = _
  simp only [List.length_cons, pySplitF, if_neg hc]
  rfl

theorem pySplit_ne_nil (sep : List Nat) : ∀ s, pySplit sep s ≠ [] := by
  intro s
  cases s with
  | nil => simp [pySplit_nil]
  | cons c rest =>
    by_cases hc : sep ≠ [] ∧ sep.isPrefixOf (c :: rest)
    · rw [pySplit_cons_pos sep c rest hc]
      simp
    · rw [pySplit_cons_neg sep c rest hc]
      cases h : pySplit sep rest <;> simp

theorem pySplit_eq_single (sep : List Nat) :
    ∀ s x, pySplit sep s = [x] → x = s := by
  intro s
  induction s with
  | nil =>
    intro x hx
    rw [pySplit_nil] at hx
    simpa using hx.symm
  | cons c rest ih =>
    intro x hx
    by_cases hc : sep ≠ [] ∧ sep.isPrefixOf (c :: rest)
    · rw [pySplit_cons_pos sep c rest hc] at hx
      have := pySplit_ne_nil sep ((c :: rest).drop sep.length)
      simp at hx
      exact absurd hx.2 this
    · rw [pySplit_cons_neg sep c rest hc] at hx
      cases h : pySplit sep rest with
      | nil => exact absurd h (pySplit_ne_nil sep rest)
      | cons p ps =>
        rw [h] at hx
        simp at hx
        obtain ⟨hx1, hx2⟩ := hx
        have hp : p = rest := ih p (by rw [h, hx2])
        rw [← hx1, hp]

theorem containsSeq_eq_true_iff (sep : List Nat) :
    ∀ s, containsSeq sep s = true ↔ sep <:+: s := by
  intro s
  induction s with
  | nil =>
    simp [containsSeq, List.isEmpty_iff]
  | cons c rest ih =>
    simp only [containsSeq, Bool.or_eq_true, List.isPrefixOf_iff_prefix, ih,
      List.infix_cons_iff]

theorem pySplit_of_not_contains (sep : List Nat) (_hsep : sep ≠ []) :
    ∀ s, ¬ sep <:+: s → pySplit sep s = [s] := by
  intro s
  induction s with
  | nil => intro h; exact pySplit_nil sep
  | cons c rest ih =>
    intro h
    have hnp : ¬ (sep ≠ [] ∧ sep.isPrefixOf (c :: rest)) := by
      rintro ⟨h1, h2⟩
      exact h (List.IsPrefix.isInfix (List.isPrefixOf_iff_prefix.mp h2))
    rw [pySplit_cons_neg sep c rest hnp]
    have hrest : ¬ sep <:+: rest := by
      intro hinf
      exact h (List.infix_cons_iff.mpr (Or.inr hinf))
    rw [ih hrest]

theorem getLastD_irrel {α : Type} (l : List α) (a b : α) (h : l ≠ []) :
    l.getLastD a = l.getLastD b := by
  cases l with
  | nil => exact absurd rfl h
  | cons c t => rw [List.getLastD_cons, List.getLastD_cons]

theorem getLastD_append_right {α : Type} (xs ys : List α) (d : α)
    (h : ys ≠ []) : (xs ++ ys).getLastD d = ys.getLastD d := by
  induction xs with
  | nil => rfl
  | cons a t ih =>
    rw [List.cons_append, List.getLastD_cons]
    have hne : t ++ ys ≠ [] := List.append_ne_nil_of_right_ne_nil t h
    rw [getLastD_irrel (t ++ ys) a d hne, ih]

theorem pySplit_sep_length_le (sep : List Nat) (hsep : sep ≠ []) :
    1 ≤ sep.length := by
  cases hs : sep with
  | nil => exact absurd hs hsep
  | cons a t => simp

theorem pySplit_cons_neg2 (sep : List Nat) (c : Nat) (rest p : List Nat)
    (ps : List (List Nat))
    (hc : ¬ (sep ≠ [] ∧ sep.isPrefixOf (c :: rest)))
    (hP : pySplit sep rest = p :: ps) :
    pySplit sep (c :: rest) = (c :: p) :: ps := by
  rw [pySplit_cons_neg sep c rest hc, hP]

/-- The trailing part retained by `pySplit` contains no occurrence of the
separator: occurrences are always consumed. -/
theorem pySplit_getLastD_no_sep (sep : List Nat) (hsep : sep ≠ []) :
    ∀ (n : Nat) (s : List Nat), s.length ≤ n →
    ¬ sep <:+: (pySplit sep s).getLastD [] := by
  intro n
  induction n with
  | zero =>
    intro s hl
    have hs : s = [] := List.length_eq_zero.mp (Nat.le_zero.mp hl)
    subst hs
    rw [pySplit_nil]
    intro h
    exact hsep (List.infix_nil.mp (by simpa using h))
  | succ n ih =>
    intro s hl
    cases s with
    | nil =>
      rw [pySplit_nil]
      intro h
      exact hsep (List.infix_nil.mp (by simpa using h))
    | cons c rest =>
      have hrl : rest.length ≤ n := by simpa using hl
      by_cases hc : sep ≠ [] ∧ sep.isPrefixOf (c :: rest)
      · rw [pySplit_cons_pos sep c rest hc, List.getLastD_cons]
        apply ih
        rw [List.length_drop]
        have h1 := pySplit_sep_length_le sep hsep
        simp only [List.length_cons]
        omega
      · cases hP : pySplit sep rest with
        | nil => exact absurd hP (pySplit_ne_nil sep rest)
        | cons p ps =>
          rw [pySplit_cons_neg2 sep c rest p ps hc hP]
          by_cases hps : ps = []
          · subst hps
            simp only [List.getLastD_cons, List.getLastD_nil]
            have hp : p = rest := pySplit_eq_single sep rest p hP
            intro hinf
            rcases List.infix_cons_iff.mp hinf with hpre | hinf2
            · rw [hp] at hpre
              exact hc ⟨hsep, List.isPrefixOf_iff_prefix.mpr hpre⟩
            · have hrec := ih rest hrl
              rw [hP] at hrec
              simp only [List.getLastD_cons, List.getLastD_nil] at hrec
              exact hrec hinf2
          · rw [List.getLastD_cons, getLastD_irrel ps (c :: p) [] hps]
            have hrec := ih rest hrl
            rw [hP, List.getLastD_cons,
              getLastD_irrel ps p [] hps] at hrec
            exact hrec

/-- Python `bytes.split` for the empty separator never arises in the
reader (the boundary always starts with two dashes); our model returns the
whole input unsplit in that case. -/
theorem pySplit_empty_sep : ∀ s, pySplit ([] : List Nat) s = [s] := by
  intro s
  induction s with
  | nil => rfl
  | cons c rest ih =>
    rw [pySplit_cons_neg ([] : List Nat) c rest (by simp), ih]

/-- Splitting an extended buffer: the parts of `a ++ b` are the already
complete parts of `a` followed by the parts of the retained remainder of
`a` extended with `b`. This is the invariance backbone for chunked
delivery. -/
theorem pySplit_append (sep b : List Nat) :
    ∀ (n : Nat) (a : List Nat), a.length ≤ n →
    pySplit sep (a ++ b) =
      (pySplit sep a).dropLast ++
        pySplit sep ((pySplit sep a).getLastD [] ++ b) := by
  intro n
  induction n with
  | zero =>
    intro a hl
    have ha : a = [] := List.length_eq_zero.mp (Nat.le_zero.mp hl)
    subst ha
    simp [pySplit_nil]
  | succ n ih =>
    intro a hl
    cases a with
    | nil => simp [pySplit_nil]
    | cons c rest =>
      have hrl : rest.length ≤ n := by simpa using hl
      by_cases hsep0 : sep = []
      · subst hsep0
        simp [pySplit_empty_sep]
      · by_cases hpa : sep.isPrefixOf (c :: rest)
        · have hpab : sep.isPrefixOf (c :: (rest ++ b)) := by
            rw [List.isPrefixOf_iff_prefix] at hpa ⊢
            exact hpa.trans (List.prefix_append (c :: rest) b)
          have hle : sep.length ≤ (c :: rest).length :=
            (List.isPrefixOf_iff_prefix.mp hpa).length_le
          rw [List.cons_append]
          rw [pySplit_cons_pos sep c (rest ++ b) ⟨hsep0, hpab⟩]
          rw [pySplit_cons_pos sep c rest ⟨hsep0, hpa⟩]
          rw [show (c :: (rest ++ b)).drop sep.length
              = ((c :: rest) ++ b).drop sep.length by rw [List.cons_append]]
          rw [List.drop_append_of_le_length hle]
          have hPne := pySplit_ne_nil sep ((c :: rest).drop sep.length)
          have hdl : (([] : List Nat) ::
              pySplit sep ((c :: rest).drop sep.length)).dropLast
              = [] :: (pySplit sep ((c :: rest).drop sep.length)).dropLast := by
            cases hq : pySplit sep ((c :: rest).drop sep.length) with
            | nil => exact absurd hq hPne
            | cons z zs => rfl
          rw [hdl, List.getLastD_cons]
          have hdrop : ((c :: rest).drop sep.length).length ≤ n := by
            rw [List.length_drop]
            have h1 := pySplit_sep_length_le sep hsep0
            simp only [List.length_cons]
            omega
          rw [ih ((c :: rest).drop sep.length) hdrop]
          rw [List.cons_append]
        · by_cases hpab : sep.isPrefixOf (c :: (rest ++ b))
          · have hlt : (c :: rest).length < sep.length := by
              by_contra hge
              push_neg at hge
              apply hpa
              rw [List.isPrefixOf_iff_prefix]
              have h1 := List.prefix_iff_eq_take.mp
                (List.isPrefixOf_iff_prefix.mp hpab)
              rw [show c :: (rest ++ b) = (c :: rest) ++ b
                from (List.cons_append c rest b).symm] at h1
              rw [List.take_append_of_le_length hge] at h1
              rw [h1]
              exact List.take_prefix _ _
            have hnia : ¬ sep <:+: (c :: rest) := by
              intro hinf
              exact absurd hinf.length_le (by omega)
            rw [pySplit_of_not_contains sep hsep0 (c :: rest) hnia]
            simp [List.getLastD_cons, List.getLastD_nil]
          · have hca : ¬ (sep ≠ [] ∧ sep.isPrefixOf (c :: rest)) := by
              rintro ⟨h1, h2⟩
              exact hpa h2
            have hcab : ¬ (sep ≠ [] ∧ sep.isPrefixOf (c :: (rest ++ b))) := by
              rintro ⟨h1, h2⟩
              exact hpab h2
            have hrw := ih rest hrl
            rw [List.cons_append]
            cases hP : pySplit sep rest with
            | nil => exact absurd hP (pySplit_ne_nil sep rest)
            | cons p ps =>
              rw [pySplit_cons_neg2 sep c rest p ps hca hP]
              by_cases hps : ps = []
              · subst hps
                have hp : p = rest := pySplit_eq_single sep rest p hP
                rw [hP] at hrw
                simp only [List.dropLast_single, List.getLastD_cons,
                  List.getLastD_nil, List.nil_append] at hrw
                simp only [List.dropLast_single, List.getLastD_cons,
                  List.getLastD_nil, List.nil_append]
                cases hQ : pySplit sep (p ++ b) with
                | nil => exact absurd hQ (pySplit_ne_nil sep (p ++ b))
                | cons r rs =>
                  rw [hQ] at hrw
                  rw [pySplit_cons_neg2 sep c (rest ++ b) r rs hcab hrw]
                  have hcpb : ¬ (sep ≠ [] ∧ sep.isPrefixOf (c :: (p ++ b))) := by
                    rw [hp]
                    exact hcab
                  rw [List.cons_append]
                  rw [pySplit_cons_neg2 sep c (p ++ b) r rs hcpb hQ]
              · have hdl1 : (p :: ps).dropLast = p :: ps.dropLast := by
                  cases hps2 : ps with
                  | nil => exact absurd hps2 hps
                  | cons z zs => rfl
                rw [hP, hdl1, List.getLastD_cons,
                  getLastD_irrel ps p [] hps, List.cons_append] at hrw
                rw [pySplit_cons_neg2 sep c (rest ++ b) p
                  (ps.dropLast ++ pySplit sep (ps.getLastD [] ++ b)) hcab hrw]
                have hdl2 : ((c :: p) :: ps).dropLast
                    = (c :: p) :: ps.dropLast := by
                  cases hps2 : ps with
                  | nil => exact absurd hps2 hps
                  | cons z zs => rfl
                rw [hdl2, List.getLastD_cons,
                  getLastD_irrel ps (c :: p) [] hps, List.cons_append]

theorem pySplit_sep_prefix (sep t : List Nat) (hsep : sep ≠ []) :
    pySplit sep (sep ++ t) = [] :: pySplit sep t := by
  cases hs : sep with
  | nil => exact absurd hs hsep
  | cons a s' =>
    have hpos := pySplit_cons_pos (a :: s') a (s' ++ t)
      ⟨by simp, by
        rw [List.isPrefixOf_iff_prefix]
        exact ⟨t, by simp⟩⟩
    rw [show (a :: s') ++ t = a :: (s' ++ t) from rfl, hpos]
    have hdrop : (a :: (s' ++ t)).drop (a :: s').length = t := by
      rw [show a :: (s' ++ t) = (a :: s') ++ t from rfl]
      exact List.drop_left (a :: s') t
    rw [hdrop]

/-- Yielding one block: when the separator has no occurrence starting
inside `x` (no occurrence in `x` extended with all but the last separator
byte), splitting `x ++ sep ++ rest` produces `x` and continues on `rest`. -/
theorem pySplit_block (sep rest' : List Nat) (hsep : sep ≠ []) :
    ∀ (x : List Nat), ¬ sep <:+: (x ++ sep.dropLast) →
    pySplit sep (x ++ (sep ++ rest')) = x :: pySplit sep rest' := by
  intro x
  induction x with
  | nil =>
    intro h
    simp only [List.nil_append]
    exact pySplit_sep_prefix sep rest' hsep
  | cons c x' ih =>
    intro h
    have hnp : ¬ sep.isPrefixOf (c :: (x' ++ (sep ++ rest'))) := by
      intro hp
      apply h
      have hpre := List.isPrefixOf_iff_prefix.mp hp
      have hsplit : sep.dropLast ++ [sep.getLast hsep] = sep :=
        List.dropLast_concat_getLast hsep
      have hxsp : ((c :: x') ++ sep.dropLast) <+:
          (c :: (x' ++ (sep ++ rest'))) := by
        refine ⟨[sep.getLast hsep] ++ rest', ?_⟩
        rw [List.append_assoc]
        rw [show c :: (x' ++ (sep ++ rest')) = (c :: x') ++ (sep ++ rest')
          from rfl]
        congr 1
        rw [← List.append_assoc, hsplit]
      have hlen : sep.length ≤ ((c :: x') ++ sep.dropLast).length := by
        rw [List.length_append, List.length_dropLast]
        have h1 := pySplit_sep_length_le sep hsep
        simp only [List.length_cons]
        omega
      exact (List.prefix_of_prefix_length_le hpre hxsp hlen).isInfix
    have hx' : ¬ sep <:+: (x' ++ sep.dropLast) := fun hi =>
      h (List.infix_cons_iff.mpr (Or.inr hi))
    have hrec := ih hx'
    have hc2 : ¬ (sep ≠ [] ∧ sep.isPrefixOf (c :: (x' ++ (sep ++ rest')))) := by
      rintro ⟨h1, h2⟩
      exact hnp h2
    rw [show (c :: x') ++ (sep ++ rest') = c :: (x' ++ (sep ++ rest'))
      from rfl]
    rw [pySplit_cons_neg2 sep c (x' ++ (sep ++ rest')) x'
      (pySplit sep rest') hc2 hrec]

/-- Empty-line separator between the header section and the body of one
multipart block. -/
def crlf2 : List Nat := [13, 10, 13, 10]

/-- One multipart block as it appears on the wire between two boundary
tokens: the header section (collapsed to its terminating empty line), the
body, and the trailing CRLF before the next boundary. -/
def blockOf (body : List Nat) : List Nat := crlf2 ++ body ++ [13, 10]

/-- The wire bytes following the leading boundary of a well-formed
multipart stream: each block followed by the next boundary token, closed by
the final terminator dashes. -/
def mkStreamTail (boundary : List Nat) : List (List Nat) → List Nat
  | [] => [45, 45]
  | b :: rest => blockOf b ++ (boundary ++ mkStreamTail boundary rest)

/-- A well-formed multipart stream carrying the given block bodies,
delimited by `boundary` and closed with the `--` terminator. -/
def mkStream (boundary : List Nat) (bodies : List (List Nat)) : List Nat :=
  boundary ++ mkStreamTail boundary bodies

theorem pySplit_mkStreamTail (boundary : List Nat) (hb : boundary ≠ [])
    (hlast : ¬ boundary <:+: [45, 45]) :
    ∀ (bodies : List (List Nat)),
    (∀ b ∈ bodies, ¬ boundary <:+: (blockOf b ++ boundary.dropLast)) →
    pySplit boundary (mkStreamTail boundary bodies)
      = bodies.map blockOf ++ [[45, 45]] := by
  intro bodies
  induction bodies with
  | nil =>
    intro h
    simpa using pySplit_of_not_contains boundary hb [45, 45] hlast
  | cons b bs ih =>
    intro h
    show pySplit boundary
      (blockOf b ++ (boundary ++ mkStreamTail boundary bs)) = _
    rw [pySplit_block boundary (mkStreamTail boundary bs) hb (blockOf b)
      (h b (by simp))]
    rw [ih (fun b2 hb2 => h b2 (by simp [hb2]))]
    simp

theorem pySplit_mkStream (boundary : List Nat) (hb : boundary ≠ [])
    (hlast : ¬ boundary <:+: [45, 45]) (bodies : List (List Nat))
    (hbodies : ∀ b ∈ bodies,
      ¬ boundary <:+: (blockOf b ++ boundary.dropLast)) :
    pySplit boundary (mkStream boundary bodies)
      = [] :: (bodies.map blockOf ++ [[45, 45]]) := by
  rw [mkStream, pySplit_sep_prefix boundary _ hb,
    pySplit_mkStreamTail boundary hb hlast bodies hbodies]

/-- ASCII whitespace bytes removed by Python `bytes.strip()`. -/
def isWS (b : Nat) : Bool :=
  b = 32 || b = 9 || b = 10 || b = 13 || b = 11 || b = 12

/-- Python `bytes.strip()`. -/
def pyStrip (s : List Nat) : List Nat :=
  ((s.dropWhile isWS).reverse.dropWhile isWS).reverse

/-- Python `raw.split(sep, 1)` (maxsplit 1): `none` when the separator
does not occur (the caller then sees a single part), otherwise the parts
before and after its first occurrence. -/
def splitOnce (sep : List Nat) : List Nat → Option (List Nat × List Nat)
  | [] => none
  | c :: rest =>
    if sep ≠ [] ∧ sep.isPrefixOf (c :: rest) then
      some ([], (c :: rest).drop sep.length)
    else
      match splitOnce sep rest with
      | none => none
      | some pq => some (c :: pq.1, pq.2)

/-- `_extract_body` (people_subscriber.py lines 201-218): reject blocks
that are empty after stripping, split off the header section at the first
empty line, strip the payload and remove a trailing terminator `--`. The
final `decode(errors="ignore")` is modelled as the identity on the bytes
(the protocol payload is ASCII text). -/
def _extract_body (raw_part : List Nat) : Option (List Nat) :=
  if pyStrip raw_part = [] then none
  else
    match splitOnce crlf2 raw_part with
    | none => none
    | some pq =>
      let body := pyStrip pq.2
      if [45, 45].isSuffixOf body then some (body.dropLast.dropLast)
      else some body

/-- A body with no surrounding whitespace: nonempty, and neither its first
nor its last byte is ASCII whitespace (so stripping is the identity). -/
def strippedNonempty (b : List Nat) : Bool :=
  match b.head?, b.getLast? with
  | some c1, some c2 => !isWS c1 && !isWS c2
  | _, _ => false

theorem strippedNonempty_ne_nil (b : List Nat)
    (h : strippedNonempty b = true) : b ≠ [] := by
  intro hb
  subst hb
  simp [strippedNonempty] at h

theorem dropWhile_ws_append (w t : List Nat)
    (hw : ∀ x ∈ w, isWS x = true) :
    (w ++ t).dropWhile isWS = t.dropWhile isWS := by
  induction w with
  | nil => rfl
  | cons a w' ih =>
    rw [List.cons_append, List.dropWhile_cons]
    rw [hw a (by simp)]
    simp only [if_true]
    exact ih (fun x hx => hw x (by simp [hx]))

theorem dropWhile_of_head_not_ws (c : Nat) (l : List Nat)
    (h : isWS c = false) : (c :: l).dropWhile isWS = c :: l := by
  rw [List.dropWhile_cons, h]
  simp

theorem pyStrip_ws_prefix (w s : List Nat)
    (hw : ∀ x ∈ w, isWS x = true) : pyStrip (w ++ s) = pyStrip s := by
  unfold pyStrip
  rw [dropWhile_ws_append w s hw]

theorem pyStrip_body_crlf (b : List Nat) (h : strippedNonempty b = true) :
    pyStrip (b ++ [13, 10]) = b := by
  cases hb : b with
  | nil => exact absurd hb (strippedNonempty_ne_nil b h)
  | cons c1 t =>
    have hsn : strippedNonempty (c1 :: t) = true := by rw [← hb]; exact h
    have hc1 : isWS c1 = false := by
      unfold strippedNonempty at hsn
      cases hlast : (c1 :: t).getLast? with
      | none => simp at hlast
      | some c2 =>
        rw [List.head?_cons, hlast] at hsn
        simp at hsn
        simp [hsn.1]
    have hc2 : ∀ c2, (c1 :: t).getLast? = some c2 → isWS c2 = false := by
      intro c2 hlast
      unfold strippedNonempty at hsn
      rw [List.head?_cons, hlast] at hsn
      simp at hsn
      simp [hsn.2]
    unfold pyStrip
    rw [show (c1 :: t) ++ [13, 10] = c1 :: (t ++ [13, 10]) from rfl]
    rw [dropWhile_of_head_not_ws c1 (t ++ [13, 10]) hc1]
    rw [show c1 :: (t ++ [13, 10]) = (c1 :: t) ++ [13, 10] from rfl]
    rw [List.reverse_append]
    rw [show ([13, 10] : List Nat).reverse = [10, 13] from rfl]
    rw [show ([10, 13] : List Nat) ++ (c1 :: t).reverse
      = 10 :: 13 :: (c1 :: t).reverse from rfl]
    rw [List.dropWhile_cons]
    rw [show isWS 10 = true from rfl]
    simp only [if_true]
    rw [List.dropWhile_cons]
    rw [show isWS 13 = true from rfl]
    simp only [if_true]
    cases hrev : (c1 :: t).reverse with
    | nil => simp at hrev
    | cons r rs =>
      have hr : (c1 :: t).getLast? = some r := by
        rw [← List.head?_reverse, hrev, List.head?_cons]
      rw [dropWhile_of_head_not_ws r rs (hc2 r hr)]
      rw [← hrev, List.reverse_reverse]

theorem pyStrip_blockOf (b : List Nat) (h : strippedNonempty b = true) :
    pyStrip (blockOf b) = b := by
  have hassoc : blockOf b = crlf2 ++ (b ++ [13, 10]) := by
    unfold blockOf
    rw [List.append_assoc]
  rw [hassoc, pyStrip_ws_prefix crlf2 (b ++ [13, 10]) (by decide)]
  exact pyStrip_body_crlf b h

theorem splitOnce_crlf2_blockOf (b : List Nat) :
    splitOnce crlf2 (blockOf b) = some ([], b ++ [13, 10]) := by
  show splitOnce crlf2 (13 :: 10 :: 13 :: 10 :: (b ++ [13, 10]))
    = some ([], b ++ [13, 10])
  rw [splitOnce]
  rw [if_pos ⟨by simp [crlf2], by rw [List.isPrefixOf_iff_prefix, crlf2]; exact ⟨b ++ [13, 10], rfl⟩⟩]
  rw [show crlf2.length = 4 from rfl]
  rfl

theorem _extract_body_nil : _extract_body [] = none := rfl

theorem _extract_body_blockOf (b : List Nat)
    (h1 : strippedNonempty b = true)
    (h2 : [45, 45].isSuffixOf b = false) :
    _extract_body (blockOf b) = some b := by
  unfold _extract_body
  have hstrip : pyStrip (blockOf b) = b := pyStrip_blockOf b h1
  rw [hstrip, splitOnce_crlf2_blockOf]
  rw [if_neg (strippedNonempty_ne_nil b h1)]
  simp only []
  rw [pyStrip_body_crlf b h1, h2]
  simp

/-- The per-part body extraction and `if body:` truthiness filter of the
yield loop in `_iter_multipart_blocks` (people_subscriber.py lines
191-194). -/
def extractYields (parts : List (List Nat)) : List (List Nat) :=
  parts.filterMap (fun raw =>
    match _extract_body raw with
    | some body => if body ≠ [] then some body else none
    | none => none)

/-- One chunk arrival in `_iter_multipart_blocks` (people_subscriber.py
lines 183-198) with the boundary already known: append the chunk to the
buffer; when the boundary token occurs in the buffer, split on it, yield
the extracted bodies of all parts but the last and retain the last part as
the new buffer; otherwise keep accumulating. -/
def stepChunk (boundary buffer chunk : List Nat) :
    List (List Nat) × List Nat :=
  let buf := buffer ++ chunk
  if boundary ≠ [] ∧ containsSeq boundary buf then
    let parts := pySplit boundary buf
    (extractYields parts.dropLast, parts.getLastD [])
  else
    ([], buf)

/-- The reader over a whole list of network chunks: the yielded bodies in
arrival order together with the final retained buffer. -/
def runReader (boundary : List Nat) :
    List Nat → List (List Nat) → List (List Nat) × List Nat
  | buffer, [] => ([], buffer)
  | buffer, chunk :: rest =>
    let r := stepChunk boundary buffer chunk
    let r2 := runReader boundary r.2 rest
    (r.1 ++ r2.1, r2.2)

theorem extractYields_append (xs ys : List (List Nat)) :
    extractYields (xs ++ ys) = extractYields xs ++ extractYields ys :=
  List.filterMap_append xs ys _

theorem stepChunk_char (boundary buffer chunk : List Nat)
    (hb : boundary ≠ []) :
    stepChunk boundary buffer chunk =
      (extractYields (pySplit boundary (buffer ++ chunk)).dropLast,
       (pySplit boundary (buffer ++ chunk)).getLastD []) := by
  unfold stepChunk
  by_cases hc : containsSeq boundary (buffer ++ chunk) = true
  · rw [if_pos ⟨hb, hc⟩]
  · rw [if_neg (by rintro ⟨h1, h2⟩; exact hc h2)]
    have hni : ¬ boundary <:+: (buffer ++ chunk) := fun hi =>
      hc ((containsSeq_eq_true_iff boundary (buffer ++ chunk)).mpr hi)
    rw [pySplit_of_not_contains boundary hb (buffer ++ chunk) hni]
    simp [extractYields, List.getLastD_cons]

theorem runReader_char (boundary : List Nat) (hb : boundary ≠ []) :
    ∀ (chunks : List (List Nat)) (buffer : List Nat),
    ¬ boundary <:+: buffer →
    runReader boundary buffer chunks =
      (extractYields (pySplit boundary (buffer ++ chunks.flatten)).dropLast,
       (pySplit boundary (buffer ++ chunks.flatten)).getLastD []) := by
  intro chunks
  induction chunks with
  | nil =>
    intro buffer hbuf
    rw [List.flatten_nil, List.append_nil]
    rw [pySplit_of_not_contains boundary hb buffer hbuf]
    simp [runReader, extractYields, List.getLastD_cons]
  | cons ch rest ih =>
    intro buffer hbuf
    have hnew : ¬ boundary <:+:
        (pySplit boundary (buffer ++ ch)).getLastD [] :=
      pySplit_getLastD_no_sep boundary hb (buffer ++ ch).length
        (buffer ++ ch) (Nat.le_refl _)
    have hsplit := pySplit_append boundary rest.flatten
      (buffer ++ ch).length (buffer ++ ch) (Nat.le_refl _)
    have hYne := pySplit_ne_nil boundary
      ((pySplit boundary (buffer ++ ch)).getLastD [] ++ rest.flatten)
    simp only [runReader]
    rw [stepChunk_char boundary buffer ch hb]
    simp only []
    rw [ih ((pySplit boundary (buffer ++ ch)).getLastD []) hnew]
    rw [List.flatten_cons, ← List.append_assoc]
    rw [hsplit]
    rw [List.dropLast_append_of_ne_nil _ hYne]
    rw [extractYields_append]
    rw [getLastD_append_right _ _ [] hYne]

theorem extractYields_map_blockOf :
    ∀ (bodies : List (List Nat)),
    (∀ b ∈ bodies,
      strippedNonempty b = true ∧ [45, 45].isSuffixOf b = false) →
    extractYields (bodies.map blockOf) = bodies := by
  intro bodies
  induction bodies with
  | nil => intro h; rfl
  | cons b bs ih =>
    intro h
    obtain ⟨h1, h2⟩ := h b (by simp)
    rw [List.map_cons]
    unfold extractYields
    rw [List.filterMap_cons]
    rw [_extract_body_blockOf b h1 h2]
    simp only [if_pos (strippedNonempty_ne_nil b h1)]
    have hrest := ih (fun b2 hb2 => h b2 (by simp [hb2]))
    unfold extractYields at hrest
    rw [hrest]

/-- C5: delivering a well-formed multipart stream of N block bodies to the
reader, in any chunk granularity whatsoever (one byte at a time included),
yields exactly those N bodies, and the reader's outcome (yields and final
buffer) is identical to delivering the whole stream as one chunk. -/
theorem multipart_reader_yields_blocks (boundary : List Nat)
    (bodies : List (List Nat)) (chunks : List (List Nat))
    (hb : boundary ≠ [])
    (hlast : containsSeq boundary [45, 45] = false)
    (hbodies : ∀ b ∈ bodies,
      strippedNonempty b = true ∧ [45, 45].isSuffixOf b = false ∧
      containsSeq boundary (blockOf b ++ boundary.dropLast) = false)
    (hchunks : chunks.flatten = mkStream boundary bodies) :
    (runReader boundary [] chunks).1 = bodies ∧
    runReader boundary [] chunks =
      runReader boundary [] [mkStream boundary bodies] := by
  have hlastI : ¬ boundary <:+: [45, 45] := by
    intro hi
    rw [← containsSeq_eq_true_iff] at hi
    rw [hlast] at hi
    exact absurd hi (by simp)
  have hbodiesI : ∀ b ∈ bodies,
      ¬ boundary <:+: (blockOf b ++ boundary.dropLast) := by
    intro b hbmem hi
    rw [← containsSeq_eq_true_iff] at hi
    rw [(hbodies b hbmem).2.2] at hi
    exact absurd hi (by simp)
  have hempty : ¬ boundary <:+: ([] : List Nat) := by
    intro hi
    exact hb (List.infix_nil.mp hi)
  have h1 := runReader_char boundary hb chunks [] hempty
  have h2 := runReader_char boundary hb [mkStream boundary bodies] [] hempty
  rw [hchunks] at h1
  simp only [List.flatten_cons, List.flatten_nil, List.append_nil,
    List.nil_append] at h1 h2
  refine ⟨?_, h1.trans h2.symm⟩
  rw [h1]
  simp only []
  rw [pySplit_mkStream boundary hb hlastI bodies hbodiesI]
  have hmapne : bodies.map blockOf ++ [[45, 45]] ≠ [] := by simp
  have hdl : (([] : List Nat) ::
      (bodies.map blockOf ++ [[45, 45]])).dropLast
      = [] :: (bodies.map blockOf) := by
    cases hq : bodies.map blockOf ++ [[45, 45]] with
    | nil => exact absurd hq hmapne
    | cons z zs =>
      rw [← hq]
      show ([] :: (bodies.map blockOf ++ [[45, 45]])).dropLast = _
      rw [show ([] : List Nat) :: (bodies.map blockOf ++ [[45, 45]])
        = ([] :: bodies.map blockOf) ++ [[45, 45]] from by simp, List.dropLast_concat]
  rw [hdl]
  unfold extractYields
  rw [List.filterMap_cons]
  rw [_extract_body_nil]
  simp only []
  exact extractYields_map_blockOf bodies
    (fun b hbmem => ⟨(hbodies b hbmem).1, (hbodies b hbmem).2.1⟩)

/-- Sample boundary token `--b` for the concrete reader witness. -/
def exBoundary : List Nat := [45, 45, 98]

/-- Sample block bodies (`a=1` and `c`) for the concrete reader witness. -/
def exBodies : List (List Nat) := [[97, 61, 49], [99]]

/-- The sample stream delivered one byte per network chunk. -/
def exChunks : List (List Nat) :=
  (mkStream exBoundary exBodies).map (fun c => [c])

theorem multipart_reader_yields_blocks_witness :
    (runReader exBoundary [] exChunks).1 = exBodies ∧
    runReader exBoundary [] exChunks =
      runReader exBoundary [] [mkStream exBoundary exBodies] :=
  multipart_reader_yields_blocks exBoundary exBodies exChunks
    (by decide) (by decide) (by decide) (by decide)

end PeopleCounting
